import Mathlib

/-!
Verification of the vault-cli-manager secret-mutation core.

The Go source is embedded shallowly: the backend (vaultkv client plus the
tree lister/fetcher, which the spec treats as an external capability) is a
`World` of pure response functions, and every operation returns its result
together with the ordered list of backend calls it issued.  Addresses are
taken in already-parsed `path / key / version` form (the Go functions parse
the `path[:key][^version]` string first; the codec itself is not under
test here).  Error messages keep the source wording, with the quoting
characters dropped.
-/

set_option autoImplicit false

namespace VaultCli

/-! ## Data model (vault/secret.go, vault/tree.go types) -/

/-- Lifecycle state of one version of a secret. -/
inductive SecretState
  | alive
  | deleted
  | destroyed
deriving DecidableEq

/-- Version metadata record as reported by the backend (vaultkv.KVVersion). -/
structure KVVersion where
  version : Nat
  deleted : Bool
  destroyed : Bool
deriving DecidableEq

instance : Inhabited KVVersion := ⟨⟨0, false, false⟩⟩

/-- Modelled from the spec: the `Secret` key/value mapping (secret.go is not
under src/; behavior fixed by spec section 3 and vault/secret_test.go).
The Go map is represented as an association list with unique keys. -/
structure Secret where
  data : List (String × String)
deriving DecidableEq

instance : Inhabited Secret := ⟨⟨[]⟩⟩

/-- Modelled from the spec: `Secret.Has` — key membership. -/
def Secret.Has (s : Secret) (k : String) : Bool :=
  s.data.any (fun kv => kv.1 == k)

/-- Modelled from the spec: `Secret.Get` — value lookup, empty string if absent. -/
def Secret.Get (s : Secret) (k : String) : String :=
  ((s.data.find? (fun kv => kv.1 == k)).map Prod.snd).getD ""

/-- Modelled from the spec: `Secret.Empty` — true iff the mapping has zero entries. -/
def Secret.Empty (s : Secret) : Bool :=
  s.data.isEmpty

/-- Modelled from the spec: `Secret.Delete` — removes a key; the caller
separately records whether the key was present (Go returns that Bool). -/
def Secret.deleteKey (s : Secret) (k : String) : Secret :=
  ⟨s.data.filter (fun kv => !(kv.1 == k))⟩

/-- Modelled from the spec: `Secret.Set` with skipIfExists=false — upsert. -/
def Secret.setKV (s : Secret) (k v : String) : Secret :=
  if s.Has k then ⟨s.data.map (fun kv => if kv.1 == k then (k, v) else kv)⟩
  else ⟨s.data ++ [(k, v)]⟩

/-- Modelled from the spec: `Secret.Keys` — all keys, sorted alphabetically
(vault/secret_test.go pins the sorted order). -/
def insertSorted (x : String) : List String → List String
  | [] => [x]
  | y :: ys => if x ≤ y then x :: y :: ys else y :: insertSorted x ys

def Secret.keys (s : Secret) : List String :=
  (s.data.map Prod.fst).foldr insertSorted []

/-- One retained version of a secret, with its data (vault/tree.go SecretVersion). -/
structure SecretVersion where
  number : Nat
  state : SecretState
  data : Secret
deriving DecidableEq

instance : Inhabited SecretVersion := ⟨⟨0, .alive, ⟨[]⟩⟩⟩

/-- One logical secret with its full retained history (vault/tree.go SecretEntry). -/
structure SecretEntry where
  path : String
  versions : List SecretVersion
deriving DecidableEq

instance : Inhabited SecretEntry := ⟨⟨"", []⟩⟩

/-- A parsed secret address: the Go code passes `path[:key][^version]` strings
and calls ParsePath at each entry point; we work on the parsed triple.
version = 0 means unspecified. -/
structure Address where
  path : String
  key : String
  version : Nat
deriving DecidableEq

/-- String rendering of an address, used in error messages
(Go interpolates the original input string). -/
def addrString (a : Address) : String :=
  a.path ++ (if a.key ≠ "" then ":" ++ a.key else "")
         ++ (if a.version ≠ 0 then "^" ++ toString a.version else "")

/-! ## Error taxonomy (vault/errors.go, behavior pinned by vault/errors_test.go) -/

inductive VErr
  | secretNotFound (msg : String)
  | keyNotFound (path key : String)
  | other (msg : String)
deriving DecidableEq

def NewSecretNotFoundError (p : String) : VErr :=
  .secretNotFound ("no secret exists at path " ++ p)

def IsSecretNotFound : VErr → Bool
  | .secretNotFound _ => true
  | _ => false

def IsKeyNotFound : VErr → Bool
  | .keyNotFound _ _ => true
  | _ => false

def IsNotFound (e : VErr) : Bool :=
  IsSecretNotFound e || IsKeyNotFound e

def VErr.message : VErr → String
  | .secretNotFound m => m
  | .keyNotFound p k => "no key " ++ k ++ " exists in secret " ++ p
  | .other m => m

/-! ## Backend calls and the world -/

/-- Options for the tree lister/fetcher capability (vault/tree.go TreeOpts). -/
structure TreeOpts where
  fetchKeys : Bool
  getOnly : Bool
  fetchAllVersions : Bool
  getDeletedVersions : Bool
  allowDeletedSecrets : Bool
  skipVersionInfo : Bool
deriving DecidableEq

/-- Options for SecretEntry.Copy (vault/tree.go TreeCopyOpts). -/
structure TreeCopyOpts where
  clear : Bool
  pad : Bool
deriving DecidableEq

/-- One backend call, as issued by the mutation engine. -/
inductive BCall
  | getC (path : String) (version : Nat)
  | listC (path : String)
  | versionsC (path : String)
  | mountVerC (path : String)
  | constructC (path : String)
  | entryCopyC (dstPath : String)
  | setC (path : String) (data : List (String × String))
  | deleteC (path : String) (versions : List Nat)
  | destroyC (path : String) (versions : List Nat)
  | destroyAllC (path : String)
  | undeleteC (path : String) (versions : List Nat)
deriving DecidableEq

/-- Calls that mutate backend state (as opposed to reads/queries). -/
def BCall.isMutation : BCall → Bool
  | .setC _ _ => true
  | .deleteC _ _ => true
  | .destroyC _ _ => true
  | .destroyAllC _ => true
  | .undeleteC _ _ => true
  | .entryCopyC _ => true
  | _ => false

def BCall.isSet : BCall → Bool
  | .setC _ _ => true
  | _ => false

/-- Response of a read-type backend endpoint: data, a 404, or another failure. -/
inductive BResp (α : Type)
  | ok (val : α)
  | notFound
  | failed (e : VErr)
deriving DecidableEq

/-- The backend, as a pure model: response functions for each consumed
capability (spec section 6), including the tree lister/fetcher and the
deep-replay writer, plus the outcome of each mutating call. -/
structure World where
  kvGet : String → Nat → BResp (List (String × String))
  kvList : String → BResp (List String)
  kvVersions : String → BResp (List KVVersion)
  mountVer : String → Except VErr Nat
  mountPathF : String → String
  construct : String → TreeOpts → Except VErr (List SecretEntry)
  entryCopy : SecretEntry → String → TreeCopyOpts → Except VErr Unit
  mutResult : BCall → Option VErr

/-- Sequencing of two traced steps: propagate the first error, otherwise run
the continuation and concatenate the call traces. -/
def mstep {α β : Type} (x : Except VErr α × List BCall)
    (f : α → Except VErr β × List BCall) : Except VErr β × List BCall :=
  match x with
  | (.error e, tr) => (.error e, tr)
  | (.ok a, tr) => ((f a).1, tr ++ (f a).2)

/-- Issue one mutating backend call; the world decides whether it fails. -/
def mutOp (w : World) (c : BCall) : Except VErr Unit × List BCall :=
  match w.mutResult c with
  | none => (.ok (), [c])
  | some e => (.error e, [c])

/-- Result of a mutating call, without the trace. -/
def mutResultE (w : World) (c : BCall) : Except VErr Unit :=
  match w.mutResult c with
  | none => .ok ()
  | some e => .error e

/-! ## Read / List / Versions / MountVersion (part_007, vault/vault.go) -/

/-- Result of `Vault.Read` (part_007:13-51): fetch the secret at the
address; when the address carries a key, fail with KeyNotFound if that key
is absent, else keep only that one key.  Values are already strings in the
model (Go JSON-encodes non-string values into strings). -/
def readRes (w : World) (a : Address) : Except VErr Secret :=
  match w.kvGet a.path a.version with
  | .notFound => .error (NewSecretNotFoundError a.path)
  | .failed e => .error e
  | .ok raw =>
    if a.key ≠ "" then
      match raw.find? (fun kv => kv.1 == a.key) with
      | none => .error (.keyNotFound a.path a.key)
      | some kv => .ok ⟨[(a.key, kv.2)]⟩
    else .ok ⟨raw⟩

/-- `Vault.Read` with its single backend call. -/
def Read (w : World) (a : Address) : Except VErr Secret × List BCall :=
  (readRes w a, [BCall.getC a.path a.version])

/-- Result of `Vault.List` (part_007:56-65): list children, converting a 404. -/
def listRes (w : World) (p : String) : Except VErr (List String) :=
  match w.kvList p with
  | .ok l => .ok l
  | .notFound => .error (NewSecretNotFoundError p)
  | .failed e => .error e

/-- Result of `Vault.Versions` (vault/vault.go:102-110), converting a 404. -/
def versionsRes (w : World) (p : String) : Except VErr (List KVVersion) :=
  match w.kvVersions p with
  | .ok l => .ok l
  | .notFound => .error (NewSecretNotFoundError p)
  | .failed e => .error e

/-- `Vault.MountVersion` (vault/vault.go:97-100). -/
def mountVersionOp (w : World) (p : String) : Except VErr Nat × List BCall :=
  (w.mountVer p, [BCall.mountVerC p])

/-- `Vault.errIfFolder` (vault/vault.go:135-145): some msg-error if the path
lists as a folder, the backend error if listing failed for a reason other
than not-found, none otherwise.  Always issues exactly one list call. -/
def errIfFolderRes (w : World) (p : String) (msg : String) : Option VErr :=
  match listRes w p with
  | .ok _ => some (.other msg)
  | .error e => if !(IsNotFound e) then some e else none

/-! ## Version-state verifier (docs/upgrade.md lines 713-862) -/

def verifyStateAlive : Nat := 0
def verifyStateAliveOrDeleted : Nat := 1

structure VerifyOpts where
  anyVersion : Bool
  state : Nat
deriving DecidableEq

structure DeleteOpts where
  destroy : Bool
  all : Bool
deriving DecidableEq

def deletedErr (a : Address) : VErr := .secretNotFound (addrString a ++ " is deleted")
def destroyedErr (a : Address) : VErr := .secretNotFound (addrString a ++ " is destroyed")
def notYetExistErr (a : Address) : VErr :=
  .secretNotFound (addrString a ++ " references a version that does not yet exist")

/-- `verifySecretExists` (upgrade.md:809-819): mount-v1 existence check,
distinguishing folders from missing secrets. -/
def verifySecretExists (w : World) (a : Address) : Except VErr Unit × List BCall :=
  match readRes w a with
  | .ok _ => (.ok (), [BCall.getC a.path a.version])
  | .error e =>
    if IsNotFound e then
      match errIfFolderRes w a.path (addrString a ++ " points to a folder, not a secret") with
      | some fe => (.error fe, [BCall.getC a.path a.version, BCall.listC a.path])
      | none => (.error e, [BCall.getC a.path a.version, BCall.listC a.path])
    else (.error e, [BCall.getC a.path a.version])

/-- The pure mount-v2 state check of `verifySecretState`
(upgrade.md:765-801), applied to the fetched version records. -/
def v2CheckRes (a : Address) (opts : VerifyOpts) (versions : List KVVersion) :
    Except VErr Unit :=
  if !opts.anyVersion then
    let res : Except VErr KVVersion :=
      if a.version = 0 then .ok (versions.getD (versions.length - 1) default)
      else if (versions.getD 0 default).version > a.version then .error (destroyedErr a)
      else if a.version > (versions.getD (versions.length - 1) default).version then
        .error (notYetExistErr a)
      else .ok (versions.getD (a.version - (versions.getD 0 default).version) default)
    match res with
    | .error e => .error e
    | .ok rec =>
      if rec.destroyed then .error (destroyedErr a)
      else if opts.state = verifyStateAlive ∧ rec.deleted then .error (deletedErr a)
      else .ok ()
  else
    if versions.any (fun rec =>
        (!(rec.deleted || rec.destroyed)) ||
        ((opts.state == verifyStateAliveOrDeleted) && !rec.destroyed)) then
      .ok ()
    else if opts.state = verifyStateAlive then
      .error (.secretNotFound ("No living versions for " ++ addrString a))
    else
      .error (.secretNotFound ("No living or deleted versions for " ++ addrString a))

/-- `verifySecretState` (upgrade.md:737-807). -/
def verifySecretState (w : World) (a : Address) (opts : VerifyOpts) :
    Except VErr Unit × List BCall :=
  mstep (mountVersionOp w a.path) fun mountV =>
  if mountV = 1 then verifySecretExists w a
  else if mountV = 2 then
    match versionsRes w a.path with
    | .error e =>
      if IsNotFound e then
        match errIfFolderRes w a.path (addrString a ++ " points to a folder, not a secret") with
        | some fe => (.error fe, [BCall.versionsC a.path, BCall.listC a.path])
        | none => (.error (NewSecretNotFoundError a.path), [BCall.versionsC a.path, BCall.listC a.path])
      else (.error e, [BCall.versionsC a.path])
    | .ok versions => (v2CheckRes a opts versions, [BCall.versionsC a.path])
  else (.error (.other ("Unsupported mount version: " ++ toString mountV)), [])

/-- `canSemanticallyDelete` (upgrade.md:837-862): the semantic-delete guard.
Note that `v.Read(path)` receives the key-qualified, version-qualified
address, exactly as in the source. -/
def canSemanticallyDelete (w : World) (a : Address) : Except VErr Unit × List BCall :=
  if a.key = "" ∨ a.version = 0 then (.ok (), [])
  else
    match versionsRes w a.path with
    | .error e => (.error e, [BCall.versionsC a.path])
    | .ok versions =>
      if (versions.getD (versions.length - 1) default).version = a.version then
        (.ok (), [BCall.versionsC a.path])
      else
        match readRes w a with
        | .error e => (.error e, [BCall.versionsC a.path, BCall.getC a.path a.version])
        | .ok s =>
          if s.data.length ≠ 1 ∨ !(s.Has a.key) then
            (.error (.other "Cannot delete specific non-isolated key of non-latest version"),
             [BCall.versionsC a.path, BCall.getC a.path a.version])
          else (.ok (), [BCall.versionsC a.path, BCall.getC a.path a.version])

/-! ## Whole-secret deletion (docs/upgrade.md lines 864-1062) -/

/-- The shouldNuke scan of `deleteEntireSecret` (upgrade.md:1008-1018): walk
the retained versions; a two-pointer index into the sorted target list is
represented by keeping the not-yet-passed suffix of that list.  Returns
false as soon as some non-destroyed version is outside the target list. -/
def nukeLoop : List Nat → List KVVersion → Bool
  | _, [] => true
  | targets, r :: rest =>
    let ts := targets.dropWhile (fun t => t < r.version)
    if !r.destroyed && (ts.isEmpty || ts.headD 0 ≠ r.version) then false
    else nukeLoop ts rest

/-- `deleteEntireSecret` (upgrade.md:984-1040). -/
def deleteEntireSecret (w : World) (a : Address) (destroy all : Bool) :
    Except VErr Unit × List BCall :=
  if destroy && all then mutOp w (.destroyAllC a.path)
  else
    let versions0 : List Nat := if a.version ≠ 0 then [a.version] else []
    if destroy then
      match versionsRes w a.path with
      | .error e => (.error e, [BCall.versionsC a.path])
      | .ok allVersions =>
        let versions :=
          if versions0.isEmpty then [(allVersions.getD (allVersions.length - 1) default).version]
          else versions0
        if nukeLoop versions allVersions then
          let y := mutOp w (.destroyAllC a.path)
          (y.1, BCall.versionsC a.path :: y.2)
        else
          let y := mutOp w (.destroyC a.path versions)
          (y.1, BCall.versionsC a.path :: y.2)
    else if all then
      match versionsRes w a.path with
      | .error e => (.error e, [BCall.versionsC a.path])
      | .ok allVersions =>
        let y := mutOp w (.deleteC a.path (allVersions.map (fun v => v.version)))
        (y.1, BCall.versionsC a.path :: y.2)
    else mutOp w (.deleteC a.path versions0)

/-- `deleteSpecificKey` (upgrade.md:1042-1062): read the bare secret path
(hence the latest version), drop the key, and either report KeyNotFound,
fall through to whole-secret deletion when the secret would become empty,
or write the remaining keys back.  The final `v.Write(secretPath, secret)`
is issued here as the client Set call it reduces to for a non-empty secret
on a bare path; `writeOp_nonempty` below proves that reduction against the
Write embedding. -/
def deleteSpecificKey (w : World) (a : Address) : Except VErr Unit × List BCall :=
  match readRes w ⟨a.path, "", 0⟩ with
  | .error e => (.error e, [BCall.getC a.path 0])
  | .ok secret =>
    if !(secret.Has a.key) then (.error (.keyNotFound a.path a.key), [BCall.getC a.path 0])
    else if (secret.deleteKey a.key).Empty then
      let y := deleteEntireSecret w ⟨a.path, "", 0⟩ false false
      (y.1, BCall.getC a.path 0 :: y.2)
    else
      let y := mutOp w (.setC a.path (secret.deleteKey a.key).data)
      (y.1, BCall.getC a.path 0 :: y.2)

/-- `Delete` (upgrade.md:864-892). -/
def Delete (w : World) (a : Address) (opts : DeleteOpts) : Except VErr Unit × List BCall :=
  mstep (verifySecretState w a
    ⟨opts.all, if opts.destroy then verifyStateAliveOrDeleted else verifyStateAlive⟩) fun _ =>
  mstep (canSemanticallyDelete w a) fun _ =>
  if a.key = "" then deleteEntireSecret w a opts.destroy opts.all
  else deleteSpecificKey w a

/-- The error filter applied by `deleteIfPresent` to the Delete outcome:
KeyNotFound is swallowed, success stays success. -/
def knfFilter : Except VErr Unit → Except VErr Unit
  | .error e => if IsKeyNotFound e then .ok () else .error e
  | .ok _ => .ok ()

/-- `deleteIfPresent` (upgrade.md:966-982): read the bare secret path first;
absence is success; otherwise delete, swallowing KeyNotFound. -/
def deleteIfPresent (w : World) (a : Address) (opts : DeleteOpts) :
    Except VErr Unit × List BCall :=
  match readRes w ⟨a.path, "", 0⟩ with
  | .error e =>
    if IsSecretNotFound e then (.ok (), [BCall.getC a.path 0])
    else (.error e, [BCall.getC a.path 0])
  | .ok _ =>
    let y := Delete w a opts
    (knfFilter y.1, BCall.getC a.path 0 :: y.2)

/-- `Write` (part_007:68-88): reject key- or version-qualified paths before
any backend call; an empty secret triggers delete-if-present instead of a
Set. -/
def writeOp (w : World) (a : Address) (s : Secret) : Except VErr Unit × List BCall :=
  if a.key ≠ "" then
    (.error (.other "cannot write to paths in /path:key notation"), [])
  else if a.version ≠ 0 then
    (.error (.other "cannot write to paths in /path^version notation"), [])
  else if s.Empty then deleteIfPresent w a ⟨false, false⟩
  else mutOp w (.setC a.path s.data)

/-! ## Copy / Move / MoveCopyTree (part_008) -/

structure MoveCopyOpts where
  skipIfExists : Bool
  quiet : Bool
  deep : Bool
  deletedVersions : Bool
deriving DecidableEq

/-- The tree fetch `ConstructSecrets` as a consumed capability (spec section
2 item 4 treats the lister/fetcher as external to the core). -/
def constructSecretsOp (w : World) (p : String) (topts : TreeOpts) :
    Except VErr (List SecretEntry) × List BCall :=
  (w.construct p topts, [BCall.constructC p])

/-- `SecretEntry.Copy`, the deep-replay writer of vault/tree.go, as a
consumed capability: replays the entry history onto the destination. -/
def entryCopyOp (w : World) (e : SecretEntry) (dst : String) (copts : TreeCopyOpts) :
    Except VErr Unit × List BCall :=
  (w.entryCopy e dst copts, [BCall.entryCopyC dst])

/-- The skipIfExists pre-check of `Copy` (part_008:48-57): probe the
destination; ok true means stop with success. -/
def copySkipCheck (w : World) (new : Address) (skip : Bool) :
    Except VErr Bool × List BCall :=
  if skip then
    (match readRes w new with
     | .ok _ => .ok true
     | .error e => if !(IsNotFound e) then .error e else .ok false,
     [BCall.getC new.path new.version])
  else (.ok false, [])

/-- The single-key branch of `Copy` (part_008:71-98 and the final write
loop 136-141). -/
def copyKeyBranch (w : World) (old new : Address) : Except VErr Unit × List BCall :=
  match readRes w old with
  | .error e => (.error e, [BCall.getC old.path old.version])
  | .ok srcSecret =>
    if !(srcSecret.Has old.key) then
      (.error (.keyNotFound (addrString old) old.key), [BCall.getC old.path old.version])
    else
      match readRes w ⟨new.path, "", 0⟩ with
      | .error e =>
        if !(IsSecretNotFound e) then
          (.error e, [BCall.getC old.path old.version, BCall.getC new.path 0])
        else
          let y := writeOp w ⟨new.path, "", 0⟩
            ((⟨[]⟩ : Secret).setKV (if new.key = "" then old.key else new.key)
              (srcSecret.Get old.key))
          (y.1, BCall.getC old.path old.version :: BCall.getC new.path 0 :: y.2)
      | .ok dstOrig =>
        let y := writeOp w ⟨new.path, "", 0⟩
          (dstOrig.setKV (if new.key = "" then old.key else new.key) (srcSecret.Get old.key))
        (y.1, BCall.getC old.path old.version :: BCall.getC new.path 0 :: y.2)

/-- The whole-secret branch of `Copy` (part_008:100-133): fetch, filter to
the explicitly requested version if any, replay onto the destination. -/
def copyWholeBranch (w : World) (old new : Address) (opts : MoveCopyOpts) :
    Except VErr Unit × List BCall :=
  match w.construct old.path
    ⟨true, true, opts.deep || old.version ≠ 0, opts.deep && opts.deletedVersions,
     opts.deep || old.version ≠ 0, false⟩ with
  | .error e => (.error e, [BCall.constructC old.path])
  | .ok t =>
    if t.isEmpty then (.error (NewSecretNotFoundError old.path), [BCall.constructC old.path])
    else
      let e0 := t.headD default
      let vlist :=
        match e0.versions.find? (fun sv => sv.number == old.version) with
        | some sv => [sv]
        | none => e0.versions
      let e1 := if old.version ≠ 0 then { e0 with versions := vlist } else e0
      let y := entryCopyOp w e1 new.path ⟨opts.deep, opts.deep⟩
      (y.1, BCall.constructC old.path :: y.2)

/-- `Copy` (part_008:27-144). -/
def Copy (w : World) (old new : Address) (opts : MoveCopyOpts) :
    Except VErr Unit × List BCall :=
  -- Go panics on this contract violation (part_008:31-33)
  if opts.deletedVersions && !opts.deep then
    (.error (.other "panic: Gave DeletedVersions and not Deep"), [])
  else
    mstep (verifySecretState w old
      ⟨opts.deep, if opts.deletedVersions then verifyStateAliveOrDeleted else verifyStateAlive⟩) fun _ =>
    mstep (copySkipCheck w new opts.skipIfExists) fun stop =>
    if stop then (.ok (), [])
    else if new.version ≠ 0 then
      (.error (.other "Copying a secret to a specific destination version is not supported"), [])
    else if opts.deep ∧ old.version ≠ 0 then
      (.error (.other "Performing a deep copy of a specified version is not supported"), [])
    else if old.key ≠ "" then
      if opts.deep then (.error (.other "Cannot take deep copy of a specific key"), [])
      else copyKeyBranch w old new
    else if new.key ≠ "" then
      (.error (.other ("Cannot move full secret " ++ addrString old ++ " into specific key " ++ addrString new)), [])
    else copyWholeBranch w old new opts

/-- `Move` (part_008:201-227): semantic-delete guard, copy, then source
cleanup.  In the deep+deletedVersions branch the Go code assigns the
DestroyAll error to err but then falls through to `return nil`, so that
error is discarded; the embedding mirrors that by ignoring the call
outcome. -/
def Move (w : World) (old new : Address) (opts : MoveCopyOpts) :
    Except VErr Unit × List BCall :=
  match canSemanticallyDelete w old with
  | (.error e, tr) =>
    (.error (.other ("Cannot move " ++ addrString old ++ ": " ++ e.message ++ ". Did you mean cp?")), tr)
  | (.ok _, tr) =>
    let c := Copy w old new opts
    match c.1 with
    | .error e => (.error e, tr ++ c.2)
    | .ok _ =>
      if opts.deep && opts.deletedVersions then
        (.ok (), tr ++ c.2 ++ [BCall.destroyAllC old.path])
      else
        let d := Delete w old ⟨false, false⟩
        match d.1 with
        | .error e => (.error e, tr ++ c.2 ++ d.2)
        | .ok _ => (.ok (), tr ++ c.2 ++ d.2)

/-- Whether pat is a prefix of the character list. -/
def leadsWith : List Char → List Char → Bool
  | [], _ => true
  | _ :: _, [] => false
  | p :: ps, c :: cs => p == c && leadsWith ps cs

/-- Replace the first occurrence of pat by rep, scanning left to right. -/
def replaceFirstChars (pat rep : List Char) : List Char → List Char
  | [] => if leadsWith pat [] then rep else []
  | c :: cs =>
    if leadsWith pat (c :: cs) then rep ++ (c :: cs).drop pat.length
    else c :: replaceFirstChars pat rep cs

/-- Go strings.Replace with count 1: replace the first occurrence. -/
def replaceFirst (s oldSub newSub : String) : String :=
  ⟨replaceFirstChars oldSub.data newSub.data s.data⟩

/-- Modelled from the spec: escaping of `:` and `^` inside one path or key
segment (vault/ui_test.go EscapePathSegment tests). -/
def escapeSegment (s : String) : String :=
  (s.replace ":" "\\:").replace "^" "\\^"

/-- Modelled from the spec: the paths contributed by one entry to
`Secrets.Paths()` — the bare path when no key data was fetched, else one
key-qualified path per key of the latest version (vault/tree_test.go). -/
def SecretEntry.pathsOf (e : SecretEntry) : List String :=
  match e.versions.getLast? with
  | none => [e.path]
  | some v =>
    if v.data.data.isEmpty then [e.path]
    else v.data.keys.map (fun k => escapeSegment e.path ++ ":" ++ escapeSegment k)

/-- `Secrets.Paths()` over a fetched collection. -/
def secretsPaths (tree : List SecretEntry) : List String :=
  tree.flatMap SecretEntry.pathsOf

/-- The per-leaf application loop of `MoveCopyTree` (part_008:184-190). -/
def runLeaves (f : String → String → MoveCopyOpts → Except VErr Unit × List BCall)
    (opts : MoveCopyOpts) : List (String × String) → Except VErr Unit × List BCall
  | [] => (.ok (), [])
  | (p, np) :: rest => mstep (f p np opts) fun _ => runLeaves f opts rest

/-- The destination paths that would be clobbered, as collected by the
skipIfExists gate of `MoveCopyTree` (part_008:163-173). -/
def collidingPaths (tree newTree : List SecretEntry) (oldRoot newRoot : String) :
    List String :=
  ((secretsPaths tree).map (fun p => replaceFirst p oldRoot newRoot)).filter
    (fun np => (secretsPaths newTree).contains np)

/-- `MoveCopyTree` (part_008:149-196).  `f` is the per-leaf Copy or Move
operation, taking source and destination path strings. -/
def MoveCopyTree (w : World) (oldRoot newRoot : String)
    (f : String → String → MoveCopyOpts → Except VErr Unit × List BCall)
    (opts : MoveCopyOpts) : Except VErr Unit × List BCall :=
  mstep (constructSecretsOp w oldRoot ⟨false, false, false, false, opts.deep, true⟩) fun tree =>
  mstep
    (if opts.skipIfExists then
      match w.construct newRoot ⟨false, false, false, false, !opts.deep, true⟩ with
      | .error e =>
        if !(IsNotFound e) then (.error e, [BCall.constructC newRoot])
        else (.ok (!(collidingPaths tree [] oldRoot newRoot).isEmpty), [BCall.constructC newRoot])
      | .ok newTree =>
        (.ok (!(collidingPaths tree newTree oldRoot newRoot).isEmpty), [BCall.constructC newRoot])
    else (.ok false, [])) fun aborted =>
  if aborted then (.ok (), [])
  else
    mstep (runLeaves f opts
      ((secretsPaths tree).map (fun p => (p, replaceFirst p oldRoot newRoot)))) fun _ =>
    match readRes w ⟨oldRoot, "", 0⟩ with
    | .ok _ => let y := f oldRoot newRoot opts; (y.1, BCall.getC oldRoot 0 :: y.2)
    | .error e =>
      if IsNotFound e then (.ok (), [BCall.getC oldRoot 0])
      else let y := f oldRoot newRoot opts; (y.1, BCall.getC oldRoot 0 :: y.2)

/-! ## Export format negotiation (part_001:296-358) -/

structure ExportVersionFmt where
  deleted : Bool
  destroyed : Bool
  value : List (String × String)
deriving DecidableEq

structure ExportSecretFmt where
  firstVersion : Nat
  versions : List ExportVersionFmt
deriving DecidableEq

structure ExportFmt where
  exportVersion : Nat
  data : List (String × ExportSecretFmt)
  requiresVersioning : List (String × Bool)
deriving DecidableEq

/-- The serialized export payload: the legacy flat map, or the versioned
envelope (marshalled as an array of exportFormat). -/
inductive ExportOut
  | legacy (m : List (String × Secret))
  | enveloped (l : List ExportFmt)
deriving DecidableEq

/-- mustV2Export (part_001:296-303): some entry retains more than one version. -/
def mustV2Export (secrets : List SecretEntry) : Bool :=
  secrets.any (fun s => s.versions.length > 1)

/-- v1Export (part_001:305-313): the legacy flat path-to-data map, taking
each entry single version. -/
def v1Export (secrets : List SecretEntry) : ExportOut :=
  .legacy (secrets.map (fun s => (s.path, (s.versions.headD default).data)))

/-- One exported version record (part_001:330-342). -/
def exportVersionOf (deletedFlag : Bool) (sv : SecretVersion) : ExportVersionFmt :=
  { deleted := (sv.state == .deleted) && deletedFlag
  , destroyed := (sv.state == .destroyed) || ((sv.state == .deleted) && !deletedFlag)
  , value := sv.data.data }

/-- Upsert into the requires_versioning map (Go map insert). -/
def upsertFlag (l : List (String × Bool)) (k : String) (b : Bool) : List (String × Bool) :=
  if l.any (fun kv => kv.1 == k) then l.map (fun kv => if kv.1 == k then (k, b) else kv)
  else l ++ [(k, b)]

/-- v2Export (part_001:315-351): the versioned envelope. -/
def v2Export (w : World) (secrets : List SecretEntry) (deletedFlag shallowFlag : Bool) :
    ExportFmt :=
  secrets.foldl (fun acc s =>
    let acc :=
      if s.versions.length > 1 then
        { acc with requiresVersioning := upsertFlag acc.requiresVersioning (w.mountPathF s.path) true }
      else acc
    let first0 := (s.versions.headD default).number
    let first := if first0 = 1 || shallowFlag then 0 else first0
    { acc with data := acc.data ++ [(s.path, ⟨first, s.versions.map (exportVersionOf deletedFlag)⟩)] })
    ⟨2, [], []⟩

/-- The export handler format choice (part_001:353-358): legacy unless some
entry has more than one version, else the single-element envelope. -/
def exportSecretsOut (w : World) (secrets : List SecretEntry)
    (deletedFlag shallowFlag : Bool) : ExportOut :=
  if mustV2Export secrets then .enveloped [v2Export w secrets deletedFlag shallowFlag]
  else v1Export secrets

/-! ## Concrete backends used to evaluate the operations -/

/-- A backend with nothing in it; scenario worlds override fields. -/
def emptyWorld : World where
  kvGet := fun _ _ => .notFound
  kvList := fun _ => .notFound
  kvVersions := fun _ => .notFound
  mountVer := fun _ => .ok 2
  mountPathF := fun _ => "secret/"
  construct := fun p _ => .error (NewSecretNotFoundError p)
  entryCopy := fun _ _ _ => .ok ()
  mutResult := fun _ => none

/-- Backend for the skipIfExists Move scenario: source secret/a (one alive
version), destination secret/b already populated. -/
def w1 : World :=
  { emptyWorld with
    kvVersions := fun p => if p == "secret/a" then .ok [⟨1, false, false⟩] else .notFound
    kvGet := fun p v =>
      if p == "secret/a" && v == 0 then .ok [("k", "v")]
      else if p == "secret/b" && v == 0 then .ok [("x", "y")]
      else .notFound }

/-- C1: the claim says a Copy or Move with skipIfExists whose destination
already exists returns success with no destination write and, for Move, the
source untouched.  Evaluating Move on w1 (destination secret/b exists)
shows the code returns success but still issues a delete against the
source secret/a: Copy returns nil for the skip case, and Move cannot tell
that apart from a completed copy, so it proceeds to remove the source
(part_008:213-225). -/
theorem c1_move_skip_deletes_source :
    w1.kvGet "secret/b" 0 = .ok [("x", "y")] ∧
    (Move w1 ⟨"secret/a", "", 0⟩ ⟨"secret/b", "", 0⟩ ⟨true, false, false, false⟩).1 = .ok () ∧
    (Move w1 ⟨"secret/a", "", 0⟩ ⟨"secret/b", "", 0⟩ ⟨true, false, false, false⟩).2.filter
      BCall.isMutation = [.deleteC "secret/a" []] := by
  refine ⟨rfl, rfl, rfl⟩

/-- Backend for the semantic-delete guard scenario: secret/app retains
versions 1 and 2; the version-1 snapshot holds two keys. -/
def w2 : World :=
  { emptyWorld with
    kvVersions := fun p =>
      if p == "secret/app" then .ok [⟨1, false, false⟩, ⟨2, false, false⟩] else .notFound
    kvGet := fun p v =>
      if p == "secret/app" && v == 1 then .ok [("k1", "a"), ("k2", "b")]
      else if p == "secret/app" && v == 0 then .ok [("k1", "x"), ("k2", "y")]
      else .notFound }

/-- C2: the claim says deleting key k1 at non-latest version 1, whose
snapshot has two keys, is rejected with an ambiguity error and no backend
mutation.  Evaluating the code: canSemanticallyDelete reads the
key-qualified path, and Read filters the snapshot down to that single key
(part_007:27-33), so the guard sees a one-key secret and approves; Delete
then succeeds and mutates the backend (it rewrites the latest snapshot). -/
theorem c2_semantic_delete_guard_bypassed :
    w2.kvGet "secret/app" 1 = .ok [("k1", "a"), ("k2", "b")] ∧
    (canSemanticallyDelete w2 ⟨"secret/app", "k1", 1⟩).1 = .ok () ∧
    (Delete w2 ⟨"secret/app", "k1", 1⟩ ⟨false, false⟩).1 = .ok () ∧
    (Delete w2 ⟨"secret/app", "k1", 1⟩ ⟨false, false⟩).2.filter BCall.isMutation =
      [.setC "secret/app" [("k2", "y")]] := by
  refine ⟨rfl, rfl, rfl, rfl⟩

/-- Backend for the deep Move scenario: secret/a exists with one alive
version; the DestroyAll call against it fails. -/
def w5 : World :=
  { emptyWorld with
    kvVersions := fun p => if p == "secret/a" then .ok [⟨1, false, false⟩] else .notFound
    construct := fun p _ =>
      if p == "secret/a" then .ok [⟨"secret/a", [⟨1, .alive, ⟨[("k", "v")]⟩⟩]⟩]
      else .error (NewSecretNotFoundError p)
    mutResult := fun c =>
      if c == .destroyAllC "secret/a" then some (.other "backend unavailable") else none }

/-- C5: the claim says the deep+deletedVersions Move cleanup is a
destroy-all whose error is propagated unchanged.  Evaluating Move on w5:
the cleanup is indeed the destroy-all call (not a soft delete), but the
backend error configured for that call is discarded — the Go code assigns
it to err and then returns nil (part_008:218-226), so Move reports
success. -/
theorem c5_move_discards_destroy_all_error :
    w5.mutResult (.destroyAllC "secret/a") = some (.other "backend unavailable") ∧
    (Move w5 ⟨"secret/a", "", 0⟩ ⟨"secret/b", "", 0⟩ ⟨false, false, true, true⟩).1 = .ok () ∧
    (Move w5 ⟨"secret/a", "", 0⟩ ⟨"secret/b", "", 0⟩ ⟨false, false, true, true⟩).2.filter
      BCall.isMutation = [.entryCopyC "secret/b", .destroyAllC "secret/a"] := by
  refine ⟨rfl, rfl, rfl⟩

/-! ## Sequencing and trace lemmas -/

theorem mstep_ok {α β : Type} {x : Except VErr α × List BCall} {v : α}
    (f : α → Except VErr β × List BCall) (h : x.1 = .ok v) :
    mstep x f = ((f v).1, x.2 ++ (f v).2) := by
  rcases x with ⟨r, tr⟩
  dsimp at h
  subst h
  rfl

theorem mstep_trace_all {α β : Type} {P : BCall → Prop}
    (x : Except VErr α × List BCall) (f : α → Except VErr β × List BCall)
    (h1 : ∀ c ∈ x.2, P c) (h2 : ∀ a, ∀ c ∈ (f a).2, P c) :
    ∀ c ∈ (mstep x f).2, P c := by
  rcases x with ⟨r, tr⟩
  cases r with
  | error e => simpa [mstep] using h1
  | ok a =>
    intro c hc
    simp only [mstep] at hc
    rcases List.mem_append.mp hc with h | h
    · exact h1 c h
    · exact h2 a c h

/-- C9: for every key-qualified address whose addressed snapshot exists,
Read either fails with KeyNotFound when the requested key is absent from
that snapshot, or returns a secret whose mapping is exactly the one
requested key with its value — never any other key of the snapshot. -/
theorem c9_read_single_key (w : World) (a : Address) (raw : List (String × String))
    (hk : a.key ≠ "")
    (hget : w.kvGet a.path a.version = .ok raw) :
    (raw.find? (fun kv => kv.1 == a.key) = none →
      (Read w a).1 = .error (.keyNotFound a.path a.key)) ∧
    (∀ entry, raw.find? (fun kv => kv.1 == a.key) = some entry →
      (Read w a).1 = .ok ⟨[(a.key, entry.2)]⟩) := by
  constructor
  · intro hfind
    simp [Read, readRes, hget, hk, hfind]
  · intro entry hfind
    simp [Read, readRes, hget, hk, hfind]

/-- Backend for the Read witness: a two-key snapshot at path p. -/
def w9 : World :=
  { emptyWorld with
    kvGet := fun p v => if p == "p" && v == 0 then .ok [("a", "1"), ("b", "2")] else .notFound }

theorem c9_witness :
    ((⟨"p", "b", 0⟩ : Address).key ≠ "") ∧
    w9.kvGet "p" 0 = .ok [("a", "1"), ("b", "2")] ∧
    (Read w9 ⟨"p", "b", 0⟩).1 = .ok ⟨[("b", "2")]⟩ := by
  refine ⟨by decide, rfl, ?_⟩
  exact (c9_read_single_key w9 ⟨"p", "b", 0⟩ [("a", "1"), ("b", "2")]
    (by decide) rfl).2 ("b", "2") rfl

/-! ## C3: version resolution in the v2 state verifier -/

/-- Number of the oldest retained version record (versions[0].Version). -/
def firstVer (l : List KVVersion) : Nat := (l.getD 0 default).version

/-- Number of the newest retained version record (versions[len-1].Version). -/
def lastVer (l : List KVVersion) : Nat := (l.getD (l.length - 1) default).version

/-- The retained records carry consecutive version numbers starting at n. -/
def contiguousFrom : Nat → List KVVersion → Bool
  | _, [] => true
  | n, r :: rest => (r.version == n) && contiguousFrom (n + 1) rest

theorem contiguousFrom_getD (l : List KVVersion) (n : Nat)
    (h : contiguousFrom n l = true) :
    ∀ i, i < l.length → (l.getD i default).version = n + i := by
  induction l generalizing n with
  | nil => intro i hi; simp at hi
  | cons r rest ih =>
    intro i hi
    simp only [contiguousFrom, Bool.and_eq_true, beq_iff_eq] at h
    obtain ⟨h1, h2⟩ := h
    cases i with
    | zero => simpa using h1
    | succ j =>
      have hj : j < rest.length := by simpa using hi
      calc ((r :: rest).getD (j + 1) default).version
          = (rest.getD j default).version := by simp [List.getD_cons_succ]
        _ = (n + 1) + j := ih (n + 1) h2 j hj
        _ = n + (j + 1) := by omega

/-- The per-record check described by the claim: a Destroyed record fails
with the Destroyed error, a Deleted record fails a required-Alive check
with the Deleted error, otherwise success. -/
def checkRecord (a : Address) (st : Nat) (rec : KVVersion) : Except VErr Unit :=
  if rec.destroyed then .error (destroyedErr a)
  else if st = verifyStateAlive ∧ rec.deleted then .error (deletedErr a)
  else .ok ()

/-- C3: on a v2 mount with a non-empty, contiguously numbered retained
version list, verifying with anyVersion false resolves the target version
as follows: an explicit version below the oldest retained number fails
Destroyed; one above the newest fails with the version-not-yet-exist
error; otherwise the record with the matching number is located and
checked per checkRecord; version 0 resolves to the newest record, checked
the same way. -/
theorem c3_verify_state_resolution (w : World) (a : Address) (st : Nat)
    (vers : List KVVersion)
    (hmv : w.mountVer a.path = .ok 2)
    (hvs : w.kvVersions a.path = .ok vers)
    (hne : vers ≠ [])
    (hpos : 0 < firstVer vers)
    (hcon : contiguousFrom (firstVer vers) vers = true) :
    (a.version ≠ 0 → a.version < firstVer vers →
      (verifySecretState w a ⟨false, st⟩).1 = .error (destroyedErr a)) ∧
    (lastVer vers < a.version →
      (verifySecretState w a ⟨false, st⟩).1 = .error (notYetExistErr a)) ∧
    (∀ i, i < vers.length → a.version = firstVer vers + i →
      (verifySecretState w a ⟨false, st⟩).1 = checkRecord a st (vers.getD i default)) ∧
    (a.version = 0 →
      (verifySecretState w a ⟨false, st⟩).1 =
        checkRecord a st (vers.getD (vers.length - 1) default)) := by
  have hlen : 0 < vers.length := List.length_pos.mpr hne
  have hlast : lastVer vers = firstVer vers + (vers.length - 1) :=
    contiguousFrom_getD vers (firstVer vers) hcon (vers.length - 1) (by omega)
  have hm : (mountVersionOp w a.path).1 = .ok 2 := by simp [mountVersionOp, hmv]
  have hunf : (verifySecretState w a ⟨false, st⟩).1 = v2CheckRes a ⟨false, st⟩ vers := by
    unfold verifySecretState
    rw [mstep_ok _ hm]
    simp [versionsRes, hvs]
  rw [hunf]
  have hfv : (vers[0]?.getD default).version = firstVer vers := by
    simp [firstVer, List.getD]
  have hlv : (vers[(vers.length - 1)]?.getD default).version = lastVer vers := by
    simp [lastVer, List.getD]
  refine ⟨?_, ?_, ?_, ?_⟩
  · intro hv0 hlt
    have hgt : a.version < (vers[0]?.getD default).version := by omega
    simp [v2CheckRes, hv0, hgt]
  · intro hgt
    have hv0 : a.version ≠ 0 := by omega
    have h1 : ¬(a.version < (vers[0]?.getD default).version) := by omega
    have h3 : (vers[(vers.length - 1)]?.getD default).version < a.version := by omega
    simp [v2CheckRes, hv0, h1, h3]
  · intro i hi hv
    have hv0 : a.version ≠ 0 := by omega
    have h1 : ¬(a.version < (vers[0]?.getD default).version) := by omega
    have h3 : ¬((vers[(vers.length - 1)]?.getD default).version < a.version) := by omega
    have hidx : a.version - (vers[0]?.getD default).version = i := by omega
    simp [v2CheckRes, hv0, h1, h3, hidx, checkRecord, List.getD]
  · intro hv0
    simp [v2CheckRes, hv0, checkRecord, List.getD]

/-- Backend for the C3 witness: the spec example with retained versions
3 alive, 4 deleted, 5 destroyed. -/
def w3 : World :=
  { emptyWorld with
    kvVersions := fun p =>
      if p == "secret/foo" then .ok [⟨3, false, false⟩, ⟨4, true, false⟩, ⟨5, false, true⟩]
      else .notFound }

theorem c3_witness :
    w3.mountVer "secret/foo" = .ok 2 ∧
    w3.kvVersions "secret/foo" = .ok [⟨3, false, false⟩, ⟨4, true, false⟩, ⟨5, false, true⟩] ∧
    contiguousFrom 3 [⟨3, false, false⟩, ⟨4, true, false⟩, ⟨5, false, true⟩] = true ∧
    (verifySecretState w3 ⟨"secret/foo", "", 4⟩ ⟨false, verifyStateAlive⟩).1 =
      .error (deletedErr ⟨"secret/foo", "", 4⟩) ∧
    (verifySecretState w3 ⟨"secret/foo", "", 5⟩ ⟨false, verifyStateAlive⟩).1 =
      .error (destroyedErr ⟨"secret/foo", "", 5⟩) ∧
    (verifySecretState w3 ⟨"secret/foo", "", 2⟩ ⟨false, verifyStateAlive⟩).1 =
      .error (destroyedErr ⟨"secret/foo", "", 2⟩) ∧
    (verifySecretState w3 ⟨"secret/foo", "", 9⟩ ⟨false, verifyStateAlive⟩).1 =
      .error (notYetExistErr ⟨"secret/foo", "", 9⟩) := by
  have h4 := (c3_verify_state_resolution w3 ⟨"secret/foo", "", 4⟩ verifyStateAlive
    [⟨3, false, false⟩, ⟨4, true, false⟩, ⟨5, false, true⟩] rfl rfl (by decide) (by decide)
    (by decide)).2.2.1 1 (by decide) (by decide)
  have h5 := (c3_verify_state_resolution w3 ⟨"secret/foo", "", 5⟩ verifyStateAlive
    [⟨3, false, false⟩, ⟨4, true, false⟩, ⟨5, false, true⟩] rfl rfl (by decide) (by decide)
    (by decide)).2.2.1 2 (by decide) (by decide)
  have h2 := (c3_verify_state_resolution w3 ⟨"secret/foo", "", 2⟩ verifyStateAlive
    [⟨3, false, false⟩, ⟨4, true, false⟩, ⟨5, false, true⟩] rfl rfl (by decide) (by decide)
    (by decide)).1 (by decide) (by decide)
  have h9 := (c3_verify_state_resolution w3 ⟨"secret/foo", "", 9⟩ verifyStateAlive
    [⟨3, false, false⟩, ⟨4, true, false⟩, ⟨5, false, true⟩] rfl rfl (by decide) (by decide)
    (by decide)).2.1 (by decide)
  refine ⟨rfl, rfl, by decide, ?_, ?_, ?_, ?_⟩
  · rw [h4]; rfl
  · rw [h5]; rfl
  · exact h2
  · exact h9

/-! ## C4: destroy escalation in deleteEntireSecret -/

/-- The retained version records are in strictly ascending number order. -/
def ascendingBy : List KVVersion → Bool
  | [] => true
  | [_] => true
  | a :: b :: t => (decide (a.version < b.version)) && ascendingBy (b :: t)

theorem ascendingBy_tail {r : KVVersion} {l : List KVVersion}
    (h : ascendingBy (r :: l) = true) : ascendingBy l = true := by
  cases l with
  | nil => rfl
  | cons b t =>
    simp only [ascendingBy, Bool.and_eq_true] at h
    exact h.2

theorem ascendingBy_head_lt {r : KVVersion} {l : List KVVersion}
    (h : ascendingBy (r :: l) = true) : ∀ x ∈ l, r.version < x.version := by
  induction l generalizing r with
  | nil => intro x hx; simp at hx
  | cons b t ih =>
    intro x hx
    simp only [ascendingBy, Bool.and_eq_true, decide_eq_true_eq] at h
    rcases List.mem_cons.mp hx with rfl | hx
    · exact h.1
    · exact Nat.lt_trans h.1 (ih h.2 x hx)

theorem nukeLoop_nil (l : List KVVersion) :
    nukeLoop [] l = l.all (fun r => r.destroyed) := by
  induction l with
  | nil => rfl
  | cons r rest ih =>
    cases hd : r.destroyed <;> simp [nukeLoop, List.all_cons, hd, ih]

theorem all_destroyed_of_gt {t : Nat} {l : List KVVersion}
    (hgt : ∀ x ∈ l, t < x.version) :
    l.all (fun r => r.destroyed || r.version == t) = l.all (fun r => r.destroyed) := by
  induction l with
  | nil => rfl
  | cons r rest ih =>
    have h1 : (r.version == t) = false := by
      have := hgt r (List.mem_cons_self r rest)
      simp only [beq_eq_false_iff_ne]
      omega
    simp [List.all_cons, h1, ih (fun x hx => hgt x (List.mem_cons_of_mem r hx))]

/-- On an ascending record list, the shouldNuke scan with a single target
version t succeeds exactly when every record is already destroyed or is
the target itself — i.e. destroying t would leave no non-destroyed
version. -/
theorem nukeLoop_singleton (t : Nat) (l : List KVVersion)
    (hasc : ascendingBy l = true) :
    nukeLoop [t] l = l.all (fun r => r.destroyed || r.version == t) := by
  induction l with
  | nil => rfl
  | cons r rest ih =>
    have htail := ascendingBy_tail hasc
    have hhead := ascendingBy_head_lt hasc
    by_cases hlt : t < r.version
    · cases hd : r.destroyed with
      | false =>
        have hne : (r.version == t) = false := by
          simp only [beq_eq_false_iff_ne]; omega
        simp [nukeLoop, List.dropWhile, hlt, hd, List.all_cons, hne]
      | true =>
        have hgt : ∀ x ∈ rest, t < x.version := fun x hx => Nat.lt_trans hlt (hhead x hx)
        simp [nukeLoop, List.dropWhile, hlt, hd, List.all_cons, nukeLoop_nil,
          all_destroyed_of_gt hgt]
    · by_cases heq : r.version = t
      · simp [nukeLoop, List.dropWhile, hlt, heq, List.all_cons, ih htail]
      · cases hd : r.destroyed with
        | false =>
          have hne : (r.version == t) = false := by
            simp only [beq_eq_false_iff_ne]; exact heq
          have hne2 : t ≠ r.version := fun h => heq h.symm
          simp [nukeLoop, List.dropWhile, hlt, hd, List.all_cons, hne, hne2]
        | true =>
          simp [nukeLoop, List.dropWhile, hlt, hd, List.all_cons, ih htail]

theorem mutOp_eq (w : World) (c : BCall) : mutOp w c = (mutResultE w c, [c]) := by
  unfold mutOp mutResultE
  cases w.mutResult c <;> rfl

/-- The version set targeted by a destroy-without-all: the explicit version
if given, else the latest retained version. -/
def targetOf (a : Address) (allV : List KVVersion) : Nat :=
  if a.version ≠ 0 then a.version else lastVer allV

/-- C4: for a destroy-without-all whole-secret Delete on a non-empty
ascending retained version list, the target is the explicit version if
given, else the latest; if every retained version that is not already
destroyed is the target (destroying it would leave zero non-destroyed
versions), the engine escalates to destroy-all, otherwise it destroys
exactly the target set. -/
theorem c4_destroy_escalation (w : World) (a : Address) (allV : List KVVersion)
    (hvs : w.kvVersions a.path = .ok allV)
    (hne : allV ≠ [])
    (hasc : ascendingBy allV = true) :
    (allV.all (fun r => r.destroyed || r.version == targetOf a allV) = true →
      deleteEntireSecret w a true false =
        (mutResultE w (.destroyAllC a.path),
         [.versionsC a.path, .destroyAllC a.path])) ∧
    (allV.all (fun r => r.destroyed || r.version == targetOf a allV) = false →
      deleteEntireSecret w a true false =
        (mutResultE w (.destroyC a.path [targetOf a allV]),
         [.versionsC a.path, .destroyC a.path [targetOf a allV]])) := by
  have hvr : versionsRes w a.path = .ok allV := by simp [versionsRes, hvs]
  have hnl := nukeLoop_singleton (targetOf a allV) allV hasc
  have key : deleteEntireSecret w a true false =
      (if nukeLoop [targetOf a allV] allV then
        (mutResultE w (.destroyAllC a.path),
         [BCall.versionsC a.path, BCall.destroyAllC a.path])
       else
        (mutResultE w (.destroyC a.path [targetOf a allV]),
         [BCall.versionsC a.path, BCall.destroyC a.path [targetOf a allV]])) := by
    unfold deleteEntireSecret
    by_cases hv : a.version ≠ 0
    · simp [hvr, hv, mutOp_eq, targetOf]
    · simp [hvr, hv, mutOp_eq, targetOf, lastVer, List.getD]
  constructor <;> intro hall
  · rw [key, hnl, hall]; rfl
  · rw [key, hnl, hall]; rfl

/-- Backend for the C4 witness: version 1 destroyed, version 2 alive;
destroying the latest (2) would leave nothing, so the engine nukes all. -/
def w4 : World :=
  { emptyWorld with
    kvVersions := fun p =>
      if p == "p" then .ok [⟨1, false, true⟩, ⟨2, false, false⟩] else .notFound }

theorem c4_witness :
    w4.kvVersions "p" = .ok [⟨1, false, true⟩, ⟨2, false, false⟩] ∧
    ascendingBy [⟨1, false, true⟩, ⟨2, false, false⟩] = true ∧
    ([⟨1, false, true⟩, ⟨2, false, false⟩] : List KVVersion).all
      (fun r => r.destroyed || r.version == targetOf ⟨"p", "", 0⟩ [⟨1, false, true⟩, ⟨2, false, false⟩]) = true ∧
    deleteEntireSecret w4 ⟨"p", "", 0⟩ true false =
      (mutResultE w4 (.destroyAllC "p"), [.versionsC "p", .destroyAllC "p"]) := by
  refine ⟨rfl, by decide, by decide, ?_⟩
  exact (c4_destroy_escalation w4 ⟨"p", "", 0⟩ [⟨1, false, true⟩, ⟨2, false, false⟩]
    rfl (by decide) (by decide)).1 (by decide)

/-! ## C6: export format negotiation -/

theorem v2Export_exportVersion (w : World) (secrets : List SecretEntry) (df sf : Bool) :
    (v2Export w secrets df sf).exportVersion = 2 := by
  unfold v2Export
  generalize hacc : (⟨2, [], []⟩ : ExportFmt) = acc
  have hv : acc.exportVersion = 2 := by rw [← hacc]
  clear hacc
  induction secrets generalizing acc with
  | nil => simpa using hv
  | cons s rest ih =>
    rw [List.foldl_cons]
    apply ih
    dsimp only
    split <;> simpa using hv

/-- C6: for a non-empty fetched collection in which every entry retains at
least one version, the legacy flat format is chosen exactly when every
entry has one version; as soon as some entry has two or more versions the
output is the single-element versioned envelope declaring export_version
2, never the legacy format. -/
theorem c6_export_format_choice (w : World) (secrets : List SecretEntry) (df sf : Bool)
    (hne : secrets ≠ [])
    (hv : ∀ s ∈ secrets, s.versions ≠ []) :
    ((∃ m, exportSecretsOut w secrets df sf = .legacy m) ↔
      ∀ s ∈ secrets, s.versions.length = 1) ∧
    ((∃ s ∈ secrets, 2 ≤ s.versions.length) →
      ∃ e, exportSecretsOut w secrets df sf = .enveloped [e] ∧ e.exportVersion = 2) := by
  have hiff : mustV2Export secrets = true ↔ ∃ s ∈ secrets, 1 < s.versions.length := by
    simp [mustV2Export]
  by_cases hmust : mustV2Export secrets = true
  · have hout : exportSecretsOut w secrets df sf =
        .enveloped [v2Export w secrets df sf] := by
      simp [exportSecretsOut, hmust]
    refine ⟨?_, fun _ => ⟨_, hout, v2Export_exportVersion w secrets df sf⟩⟩
    rw [hout]
    constructor
    · rintro ⟨m, hm⟩
      cases hm
    · intro hall
      obtain ⟨s, hs, hlen⟩ := hiff.mp hmust
      have := hall s hs
      omega
  · have hmf : mustV2Export secrets = false := by
      simpa using hmust
    have hout : exportSecretsOut w secrets df sf = v1Export secrets := by
      simp [exportSecretsOut, hmf]
    constructor
    · rw [hout]
      constructor
      · intro _ s hs
        have h1 : ¬(1 < s.versions.length) := by
          intro hgt
          exact hmust (hiff.mpr ⟨s, hs, hgt⟩)
        have h2 := List.length_pos.mpr (hv s hs)
        omega
      · intro _
        exact ⟨_, rfl⟩
    · rintro ⟨s, hs, hlen⟩
      exact absurd (hiff.mpr ⟨s, hs, by omega⟩) hmust

/-- Collection for the C6 witness: one path retaining two versions. -/
def secrets6 : List SecretEntry :=
  [⟨"secret/app", [⟨1, .alive, ⟨[("k", "v")]⟩⟩, ⟨2, .alive, ⟨[("k", "w")]⟩⟩]⟩]

theorem c6_witness :
    secrets6 ≠ [] ∧
    (∀ s ∈ secrets6, s.versions ≠ []) ∧
    (∃ s ∈ secrets6, 2 ≤ s.versions.length) ∧
    (∃ e, exportSecretsOut emptyWorld secrets6 false false = .enveloped [e] ∧
      e.exportVersion = 2) := by
  refine ⟨by decide, ?_, ?_, ?_⟩
  · intro s hs
    simp only [secrets6, List.mem_singleton] at hs
    subst hs
    decide
  · exact ⟨⟨"secret/app", [⟨1, .alive, ⟨[("k", "v")]⟩⟩, ⟨2, .alive, ⟨[("k", "w")]⟩⟩]⟩,
      by decide, by decide⟩
  · exact (c6_export_format_choice emptyWorld secrets6 false false (by decide)
      (fun s hs => by
        simp only [secrets6, List.mem_singleton] at hs
        subst hs
        decide)).2
      ⟨⟨"secret/app", [⟨1, .alive, ⟨[("k", "v")]⟩⟩, ⟨2, .alive, ⟨[("k", "w")]⟩⟩]⟩,
        by decide, by decide⟩

/-! ## Mutation-trace lemmas for the verification and deletion chain -/

theorem isSet_of_noMut {c : BCall} (h : c.isMutation = false) : c.isSet = false := by
  cases c <;> first | rfl | exact absurd h (by simp [BCall.isMutation])

theorem filter_mut_nil_of_noMut {tr : List BCall}
    (h : ∀ c ∈ tr, c.isMutation = false) : tr.filter BCall.isMutation = [] := by
  rw [List.filter_eq_nil_iff]
  intro c hc
  simp [h c hc]

theorem verifySecretExists_noMut (w : World) (a : Address) :
    ∀ c ∈ (verifySecretExists w a).2, c.isMutation = false := by
  unfold verifySecretExists
  repeat' split
  all_goals intro c hc
  all_goals simp at hc
  all_goals first
    | (rcases hc with rfl | rfl <;> rfl)
    | (subst hc; rfl)

theorem verifySecretState_noMut (w : World) (a : Address) (o : VerifyOpts) :
    ∀ c ∈ (verifySecretState w a o).2, c.isMutation = false := by
  unfold verifySecretState
  apply mstep_trace_all
  · intro c hc
    simp [mountVersionOp] at hc
    subst hc
    rfl
  · intro mv
    split
    · exact verifySecretExists_noMut w a
    · split
      · repeat' split
        all_goals intro c hc
        all_goals simp at hc
        all_goals first
          | (rcases hc with rfl | rfl <;> rfl)
          | (subst hc; rfl)
      · intro c hc
        simp at hc

theorem canSemanticallyDelete_noMut (w : World) (a : Address) :
    ∀ c ∈ (canSemanticallyDelete w a).2, c.isMutation = false := by
  unfold canSemanticallyDelete
  repeat' split
  all_goals intro c hc
  all_goals simp at hc
  all_goals first
    | (rcases hc with rfl | rfl <;> rfl)
    | (subst hc; rfl)

theorem deleteEntireSecret_noSet (w : World) (a : Address) (d al : Bool) :
    ∀ c ∈ (deleteEntireSecret w a d al).2, c.isSet = false := by
  unfold deleteEntireSecret
  simp only [mutOp_eq]
  repeat' split
  all_goals intro c hc
  all_goals simp at hc
  all_goals first
    | (rcases hc with rfl | rfl <;> rfl)
    | (subst hc; rfl)

theorem delete_noSet (w : World) (a : Address) (opts : DeleteOpts) (hk : a.key = "") :
    ∀ c ∈ (Delete w a opts).2, c.isSet = false := by
  unfold Delete
  apply mstep_trace_all
  · intro c hc
    exact isSet_of_noMut (verifySecretState_noMut w a _ c hc)
  · intro _
    apply mstep_trace_all
    · intro c hc
      exact isSet_of_noMut (canSemanticallyDelete_noMut w a c hc)
    · intro _
      rw [if_pos hk]
      exact deleteEntireSecret_noSet w a opts.destroy opts.all

/-! ## C7: key-qualified Delete -/

/-- C7: once a key-qualified Delete passes state verification and the
semantic-delete guard, it reads the latest snapshot and: reports
KeyNotFound with no mutation when the key is absent; writes back exactly
the remaining keys when some remain; and falls through to whole-secret
deletion — issuing no Set at all, so no empty secret is written — when
removing the key empties the secret. -/
theorem c7_delete_key_behavior (w : World) (a : Address) (opts : DeleteOpts)
    (raw : List (String × String))
    (hkey : a.key ≠ "")
    (hver : (verifySecretState w a ⟨opts.all,
        if opts.destroy then verifyStateAliveOrDeleted else verifyStateAlive⟩).1 = .ok ())
    (hcsd : (canSemanticallyDelete w a).1 = .ok ())
    (hget : w.kvGet a.path 0 = .ok raw) :
    (raw.any (fun kv => kv.1 == a.key) = false →
      (Delete w a opts).1 = .error (.keyNotFound a.path a.key) ∧
      (Delete w a opts).2.filter BCall.isMutation = []) ∧
    (raw.any (fun kv => kv.1 == a.key) = true →
      raw.filter (fun kv => !(kv.1 == a.key)) ≠ [] →
      (Delete w a opts).1 =
        mutResultE w (.setC a.path (raw.filter (fun kv => !(kv.1 == a.key)))) ∧
      (Delete w a opts).2.filter BCall.isMutation =
        [.setC a.path (raw.filter (fun kv => !(kv.1 == a.key)))]) ∧
    (raw.any (fun kv => kv.1 == a.key) = true →
      raw.filter (fun kv => !(kv.1 == a.key)) = [] →
      (Delete w a opts).1 = mutResultE w (.deleteC a.path []) ∧
      (Delete w a opts).2.filter BCall.isMutation = [.deleteC a.path []]) := by
  have hDel : Delete w a opts =
      ((deleteSpecificKey w a).1,
        (verifySecretState w a ⟨opts.all,
          if opts.destroy then verifyStateAliveOrDeleted else verifyStateAlive⟩).2 ++
        ((canSemanticallyDelete w a).2 ++ (deleteSpecificKey w a).2)) := by
    unfold Delete
    rw [mstep_ok _ hver, mstep_ok _ hcsd, if_neg hkey]
  have hread : readRes w ⟨a.path, "", 0⟩ = .ok ⟨raw⟩ := by
    simp [readRes, hget]
  have hfilter : ∀ tail : List BCall,
      ((verifySecretState w a ⟨opts.all,
          if opts.destroy then verifyStateAliveOrDeleted else verifyStateAlive⟩).2 ++
        ((canSemanticallyDelete w a).2 ++ tail)).filter BCall.isMutation =
      tail.filter BCall.isMutation := by
    intro tail
    rw [List.filter_append, List.filter_append,
      filter_mut_nil_of_noMut (verifySecretState_noMut w a _),
      filter_mut_nil_of_noMut (canSemanticallyDelete_noMut w a)]
    rfl
  refine ⟨?_, ?_, ?_⟩
  · intro habs
    have hdsk : deleteSpecificKey w a =
        (.error (.keyNotFound a.path a.key), [.getC a.path 0]) := by
      unfold deleteSpecificKey
      rw [hread]
      simp [Secret.Has, habs]
    rw [hDel, hdsk]
    refine ⟨rfl, ?_⟩
    dsimp only
    rw [hfilter]
    rfl
  · intro hpres hrem
    have hne : (List.filter (fun kv => !(kv.1 == a.key)) raw).isEmpty = false := by
      simpa [List.isEmpty_eq_false] using hrem
    have hdsk : deleteSpecificKey w a =
        (mutResultE w (.setC a.path (raw.filter (fun kv => !(kv.1 == a.key)))),
         [.getC a.path 0, .setC a.path (raw.filter (fun kv => !(kv.1 == a.key)))]) := by
      unfold deleteSpecificKey
      rw [hread]
      simp [Secret.Has, hpres, Secret.deleteKey, Secret.Empty, hne, mutOp_eq]
    rw [hDel, hdsk]
    refine ⟨rfl, ?_⟩
    dsimp only
    rw [hfilter]
    rfl
  · intro hpres hrem
    have hemp : (List.filter (fun kv => !(kv.1 == a.key)) raw).isEmpty = true := by
      simp [hrem]
    have hdes : deleteEntireSecret w ⟨a.path, "", 0⟩ false false =
        (mutResultE w (.deleteC a.path []), [.deleteC a.path []]) := by
      unfold deleteEntireSecret
      simp [mutOp_eq]
    have hdsk : deleteSpecificKey w a =
        (mutResultE w (.deleteC a.path []), [.getC a.path 0, .deleteC a.path []]) := by
      unfold deleteSpecificKey
      rw [hread]
      simp [Secret.Has, hpres, Secret.deleteKey, Secret.Empty, hemp, hdes]
    rw [hDel, hdsk]
    refine ⟨rfl, ?_⟩
    dsimp only
    rw [hfilter]
    rfl

/-- Backend for the C7 witness: secret p with one alive version and a
two-key latest snapshot. -/
def w7 : World :=
  { emptyWorld with
    kvVersions := fun p => if p == "p" then .ok [⟨1, false, false⟩] else .notFound
    kvGet := fun p v =>
      if p == "p" && v == 0 then .ok [("a", "1"), ("b", "2")] else .notFound }

theorem c7_witness :
    ((⟨"p", "a", 0⟩ : Address).key ≠ "") ∧
    (verifySecretState w7 ⟨"p", "a", 0⟩ ⟨false, verifyStateAlive⟩).1 = .ok () ∧
    (canSemanticallyDelete w7 ⟨"p", "a", 0⟩).1 = .ok () ∧
    w7.kvGet "p" 0 = .ok [("a", "1"), ("b", "2")] ∧
    (Delete w7 ⟨"p", "a", 0⟩ ⟨false, false⟩).1 = mutResultE w7 (.setC "p" [("b", "2")]) ∧
    (Delete w7 ⟨"p", "a", 0⟩ ⟨false, false⟩).2.filter BCall.isMutation =
      [.setC "p" [("b", "2")]] := by
  have h := (c7_delete_key_behavior w7 ⟨"p", "a", 0⟩ ⟨false, false⟩
    [("a", "1"), ("b", "2")] (by decide) rfl rfl rfl).2.1 rfl (by decide)
  exact ⟨by decide, rfl, rfl, rfl, h.1, h.2⟩

/-! ## C10: Write guards and empty-secret handling -/

/-- C10: Write rejects key-qualified and version-qualified paths before any
backend call; for a secret satisfying Empty it never issues a Set — it
returns success immediately when nothing is stored at the path, and
otherwise performs the delete-if-present flow, whose Delete outcome (with
KeyNotFound swallowed) is Write's result. -/
theorem c10_write_guards (w : World) (a : Address) (s : Secret) :
    (a.key ≠ "" →
      writeOp w a s = (.error (.other "cannot write to paths in /path:key notation"), [])) ∧
    (a.key = "" → a.version ≠ 0 →
      writeOp w a s = (.error (.other "cannot write to paths in /path^version notation"), [])) ∧
    (a.key = "" → a.version = 0 → s.Empty = true →
      (∀ c ∈ (writeOp w a s).2, c.isSet = false) ∧
      (w.kvGet a.path 0 = .notFound → writeOp w a s = (.ok (), [.getC a.path 0])) ∧
      (∀ raw, w.kvGet a.path 0 = .ok raw →
        writeOp w a s = (knfFilter (Delete w a ⟨false, false⟩).1,
          .getC a.path 0 :: (Delete w a ⟨false, false⟩).2))) := by
  obtain ⟨p, k, ver⟩ := a
  refine ⟨?_, ?_, ?_⟩
  · intro hk
    simp [writeOp, hk]
  · intro hk hv
    subst hk
    simp [writeOp, hv]
  · intro hk hv hemp
    subst hk
    subst hv
    have hw : writeOp w ⟨p, "", 0⟩ s = deleteIfPresent w ⟨p, "", 0⟩ ⟨false, false⟩ := by
      simp [writeOp, hemp]
    refine ⟨?_, ?_, ?_⟩
    · rw [hw]
      unfold deleteIfPresent
      split
      · split
        · intro c hc
          simp at hc
          subst hc
          rfl
        · intro c hc
          simp at hc
          subst hc
          rfl
      · intro c hc
        simp at hc
        rcases hc with rfl | hc
        · rfl
        · exact delete_noSet w ⟨p, "", 0⟩ ⟨false, false⟩ rfl c hc
    · intro hnf
      rw [hw]
      unfold deleteIfPresent
      have hr : readRes w ⟨p, "", 0⟩ = .error (NewSecretNotFoundError p) := by
        simp [readRes, hnf]
      rw [hr]
      simp [IsSecretNotFound, NewSecretNotFoundError]
    · intro raw hraw
      rw [hw]
      unfold deleteIfPresent
      have hr : readRes w ⟨p, "", 0⟩ = .ok ⟨raw⟩ := by
        simp [readRes, hraw]
      rw [hr]

theorem c10_witness :
    ((⟨"p", "", 0⟩ : Address).key = "") ∧
    ((⟨"p", "", 0⟩ : Address).version = 0) ∧
    ((⟨[]⟩ : Secret).Empty = true) ∧
    w7.kvGet "p" 0 = .ok [("a", "1"), ("b", "2")] ∧
    (∀ c ∈ (writeOp w7 ⟨"p", "", 0⟩ ⟨[]⟩).2, c.isSet = false) ∧
    writeOp w7 ⟨"p", "", 0⟩ ⟨[]⟩ =
      (knfFilter (Delete w7 ⟨"p", "", 0⟩ ⟨false, false⟩).1,
       .getC "p" 0 :: (Delete w7 ⟨"p", "", 0⟩ ⟨false, false⟩).2) := by
  have h := (c10_write_guards w7 ⟨"p", "", 0⟩ ⟨[]⟩).2.2 rfl rfl rfl
  exact ⟨rfl, rfl, rfl, rfl, h.1, h.2.2 [("a", "1"), ("b", "2")] rfl⟩

/-! ## C8: MoveCopyTree skipIfExists gate -/

/-- C8: with skipIfExists set, MoveCopyTree computes every corresponding
destination path from the listed source tree and compares it with the
destination tree before doing anything; if at least one collides, the
whole operation returns success after only the two tree listings — the
per-leaf operation is never invoked (the result is identical for every f)
and no mutation is performed. -/
theorem c8_tree_skip_aborts_all (w : World) (oldRoot newRoot : String)
    (f : String → String → MoveCopyOpts → Except VErr Unit × List BCall)
    (opts : MoveCopyOpts) (tree newTree : List SecretEntry)
    (hsk : opts.skipIfExists = true)
    (hold : w.construct oldRoot ⟨false, false, false, false, opts.deep, true⟩ = .ok tree)
    (hnew : w.construct newRoot ⟨false, false, false, false, !opts.deep, true⟩ = .ok newTree)
    (hcol : collidingPaths tree newTree oldRoot newRoot ≠ []) :
    MoveCopyTree w oldRoot newRoot f opts =
      (.ok (), [.constructC oldRoot, .constructC newRoot]) := by
  have hne : (collidingPaths tree newTree oldRoot newRoot).isEmpty = false := by
    simpa [List.isEmpty_eq_false] using hcol
  simp [MoveCopyTree, constructSecretsOp, mstep, hold, hnew, hsk, hne]

/-- Backend for the C8 witness: the source tree holds old/leaf and the
destination tree already holds new/leaf. -/
def w8 : World :=
  { emptyWorld with
    construct := fun p _ =>
      if p == "old" then .ok [⟨"old/leaf", []⟩]
      else if p == "new" then .ok [⟨"new/leaf", []⟩]
      else .error (NewSecretNotFoundError p) }

theorem c8_witness :
    (⟨true, false, false, false⟩ : MoveCopyOpts).skipIfExists = true ∧
    w8.construct "old" ⟨false, false, false, false, false, true⟩ = .ok [⟨"old/leaf", []⟩] ∧
    w8.construct "new" ⟨false, false, false, false, true, true⟩ = .ok [⟨"new/leaf", []⟩] ∧
    collidingPaths [⟨"old/leaf", []⟩] [⟨"new/leaf", []⟩] "old" "new" ≠ [] ∧
    MoveCopyTree w8 "old" "new" (fun p _ _ => (.ok (), [.setC p []]))
      ⟨true, false, false, false⟩ = (.ok (), [.constructC "old", .constructC "new"]) := by
  refine ⟨rfl, rfl, rfl, by decide, ?_⟩
  exact c8_tree_skip_aborts_all w8 "old" "new" (fun p _ _ => (.ok (), [.setC p []]))
    ⟨true, false, false, false⟩ [⟨"old/leaf", []⟩] [⟨"new/leaf", []⟩] rfl rfl rfl (by decide)

end VaultCli
